import Mathlib

/-!
Verification development for the minecraft-mcp chest-management core.

The TypeScript sources are shallowly embedded as Lean definitions:

* `src/mcp-server/src/storage/chestStore.ts` — the persistent registry
  (`listChests`, `getChestByLabel`, `getChestByPosition`, `upsertChest`).
  The store is modelled as an explicit `WorldStore` value threaded through
  the functions; the impure inputs of `upsertChest` (the `new Date()`
  timestamp and the generated id) are passed as parameters.
* `src/mcp-server/src/skills/library/chestUtils.ts` — container
  classification (`detectContainerAt`), the access gate of
  `openContainerAt`, and slot accounting (`getContainerSlotInfo`,
  `summarizeContainerContents`, `countFreeContainerSlots`).  The world is
  an abstract block-name map `StoredPosition → Option String` standing for
  `bot.blockAt`; throwing functions return `Except String`.
* `src/mcp-server/src/skills/library/mutex.ts` — `runExclusive`.  The
  promise chain is modelled twice, at two levels of abstraction: a phase
  transition system capturing the execution windows of queued operations
  (for the ordering claims), and a promise-identity model capturing the
  lock-map bookkeeping with reference equality (for the cleanup claim).
* `deposit_items.ts` / `withdraw_items` — the bulk-transfer fallback
  helpers `depositType` / `withdrawType`, with the effectful
  `window.deposit` / `window.withdraw` calls abstracted as success
  oracles.
-/

namespace ChestStore

/-- Integer block coordinate, the `StoredPosition` interface of
`chestStore.ts` (JS numbers are used as integers throughout the store). -/
structure StoredPosition where
  x : Int
  y : Int
  z : Int
deriving DecidableEq, Repr

/-- Container types, the string-literal union of `ChestRecord.type`. -/
inductive ContainerType where
  | single_chest
  | double_chest
  | trapped_chest
  | barrel
  | ender_chest
  | shulker_box
  | container
deriving DecidableEq, Repr

/-- A persisted chest record (`ChestRecord` in `chestStore.ts`).  The
optional JS booleans `hidden`, `forbidden`, `destroyed` are modelled as
`Bool` with `false` for absent, which is how the code consumes them
(`!c.destroyed`, `!!record.forbidden`, …). -/
structure ChestRecord where
  id : String
  label : String
  notes : Option String := none
  hidden : Bool := false
  forbidden : Bool := false
  type : ContainerType
  positions : List StoredPosition
  primary : StoredPosition
  dimension : String
  createdAt : String
  updatedAt : String
  destroyed : Bool := false
deriving DecidableEq, Repr

/-- The per-world slice of the store (`WorldStore` in `chestStore.ts`). -/
structure WorldStore where
  chests : List ChestRecord
deriving DecidableEq, Repr

/-- Embeds `normalizeLabel`: `label.trim()`. -/
def normalizeLabel (label : String) : String :=
  label.trim

/-- Embeds `posEquals`. -/
def posEquals (a b : StoredPosition) : Bool :=
  a.x == b.x && a.y == b.y && a.z == b.z

/-- Embeds `listChests`:
`ws.chests.filter(c => !c.destroyed && (includeHidden || !c.hidden) && !c.forbidden)`. -/
def listChests (ws : WorldStore) (includeHidden : Bool) : List ChestRecord :=
  ws.chests.filter fun c => !c.destroyed && (includeHidden || !c.hidden) && !c.forbidden

/-- Embeds `getChestByLabel`: case-insensitive trimmed match, skipping
destroyed and forbidden records. -/
def getChestByLabel (ws : WorldStore) (label : String) : Option ChestRecord :=
  let norm := (normalizeLabel label).toLower
  ws.chests.find? fun c => !c.destroyed && !c.forbidden && c.label.toLower == norm

/-- Embeds `getChestByPosition`: first non-destroyed record one of whose
`positions` equals `pos` (forbidden records are not filtered here). -/
def getChestByPosition (ws : WorldStore) (pos : StoredPosition) : Option ChestRecord :=
  ws.chests.find? fun c => !c.destroyed && c.positions.any fun p => posEquals p pos

/-- Mutating the first list element satisfying `p` with `f`, returning the
mutated element if any.  This models the JS idiom
`const existing = arr.find(p); if (existing) mutate(existing)` where the
found object is aliased inside the array. -/
def updateFirst (p : ChestRecord → Bool) (f : ChestRecord → ChestRecord) :
    List ChestRecord → Option ChestRecord × List ChestRecord
  | [] => (none, [])
  | c :: cs =>
    if p c then (some (f c), f c :: cs)
    else
      let r := updateFirst p f cs
      (r.1, c :: r.2)

/-- The field overwrite performed by `upsertChest` on an existing record
(lines 139–148 of `chestStore.ts`): all mutable fields are replaced,
`updatedAt` is bumped to `now` and `destroyed` is cleared; `id` and
`createdAt` are kept. -/
def overwriteFields (record : ChestRecord) (now : String) (existing : ChestRecord) :
    ChestRecord :=
  { existing with
    label := normalizeLabel record.label
    notes := record.notes
    hidden := record.hidden
    forbidden := record.forbidden
    type := record.type
    positions := record.positions
    primary := record.primary
    dimension := record.dimension
    updatedAt := now
    destroyed := false }

/-- Predicate of the label lookup in `upsertChest`:
`c.label.toLowerCase() === norm` with `norm = normalizeLabel(record.label).toLowerCase()`.
Unlike `getChestByLabel`, destroyed and forbidden records are not skipped. -/
def labelMatches (record : ChestRecord) (c : ChestRecord) : Bool :=
  c.label.toLower == (normalizeLabel record.label).toLower

/-- Predicate of the primary-position lookup in `upsertChest`:
`posEquals(c.primary, record.primary)`. -/
def primaryMatches (record : ChestRecord) (c : ChestRecord) : Bool :=
  posEquals c.primary record.primary

/-- The freshly appended record of `upsertChest` (lines 152–159): spread of
the input with `id: record.id || fresh`, fresh timestamps, `destroyed:false`
and the coerced `forbidden` flag. -/
def freshRecord (record : ChestRecord) (now : String) (freshId : String) : ChestRecord :=
  { record with
    id := if record.id = "" then freshId else record.id
    createdAt := now
    updatedAt := now
    destroyed := false }

/-- Embeds `upsertChest`.  The impure timestamp (`new Date().toISOString()`)
and generated id (`chest-${Date.now()}-…`) are parameters `now` and
`freshId`.  Resolution order is as in the source: first record with a
case-insensitive label match, else first record with an exact primary
match; if found its fields are overwritten in place, else a fresh record is
appended.  Returns the resulting record together with the updated store. -/
def upsertChest (ws : WorldStore) (record : ChestRecord) (now : String)
    (freshId : String) : ChestRecord × WorldStore :=
  let byLabel := updateFirst (labelMatches record) (overwriteFields record now) ws.chests
  match byLabel.1 with
  | some updated => (updated, ⟨byLabel.2⟩)
  | none =>
    let byPrimary :=
      updateFirst (primaryMatches record) (overwriteFields record now) ws.chests
    match byPrimary.1 with
    | some updated => (updated, ⟨byPrimary.2⟩)
    | none =>
      let newRec := freshRecord record now freshId
      (newRec, ⟨ws.chests ++ [newRec]⟩)

end ChestStore

namespace ChestUtils

open ChestStore

/-- Abstract world handle: the block name at a coordinate, standing for
`bot.blockAt(pos)?.name`; `none` models an unloaded block. -/
def BlockWorld :=
  StoredPosition → Option String

/-- Embeds `pos.offset(dx, dy, dz)` of the Vec3 library. -/
def offset (p : StoredPosition) (dx dy dz : Int) : StoredPosition :=
  ⟨p.x + dx, p.y + dy, p.z + dz⟩

/-- The four orthogonal horizontal neighbors probed by `detectContainerAt`,
in source order: `+x, -x, +z, -z`. -/
def adjPositions (pos : StoredPosition) : List StoredPosition :=
  [offset pos 1 0 0, offset pos (-1) 0 0, offset pos 0 0 1, offset pos 0 0 (-1)]

/-- Result record of `detectContainerAt` (`DetectedContainer`). -/
structure DetectedContainer where
  type : ContainerType
  positions : List StoredPosition
  primary : StoredPosition
deriving DecidableEq, Repr

/-- Embeds `isContainerBlockName`. -/
def isContainerBlockName (name : String) : Bool :=
  if name = "" then false
  else
    name == "chest" || name == "trapped_chest" || name == "barrel" ||
    name == "ender_chest" || String.endsWith name "_shulker_box" || name == "shulker_box"

/-- The JS comparator `(a, b) => (a.x - b.x) || (a.y - b.y) || (a.z - b.z)`:
`||` yields the first nonzero difference, so this is the lexicographic
comparison by x, then y, then z. -/
def vecCmp (a b : StoredPosition) : Int :=
  if a.x - b.x ≠ 0 then a.x - b.x
  else if a.y - b.y ≠ 0 then a.y - b.y
  else a.z - b.z

/-- Embeds `[pos, match].sort(cmp)`: a two-element JS sort swaps the pair
exactly when the comparator is positive on it. -/
def sortPair (a b : StoredPosition) : StoredPosition × StoredPosition :=
  if vecCmp a b > 0 then (b, a) else (a, b)

/-- Lexicographic order on coordinates by x, then y, then z — the
specification notion of ascending coordinate order. -/
def lexLE (a b : StoredPosition) : Prop :=
  a.x < b.x ∨ (a.x = b.x ∧ (a.y < b.y ∨ (a.y = b.y ∧ a.z ≤ b.z)))

/-- Embeds `detectContainerAt` (`chestUtils.ts` lines 50–96).  Throws are
modelled by `Except.error` with the source messages. -/
def detectContainerAt (world : BlockWorld) (pos : StoredPosition) :
    Except String DetectedContainer :=
  match world pos with
  | none => .error "No block loaded at the specified position"
  | some name =>
    if name == "chest" || name == "trapped_chest" then
      match (adjPositions pos).find? (fun p => world p == some name) with
      | some m =>
        let s := sortPair pos m
        .ok { type := if name == "chest" then .double_chest else .trapped_chest,
              positions := [s.1, s.2], primary := s.1 }
      | none =>
        .ok { type := if name == "chest" then .single_chest else .trapped_chest,
              positions := [pos], primary := pos }
    else if name == "barrel" then .ok ⟨.barrel, [pos], pos⟩
    else if name == "ender_chest" then .ok ⟨.ender_chest, [pos], pos⟩
    else if String.endsWith name "_shulker_box" || name == "shulker_box" then
      .ok ⟨.shulker_box, [pos], pos⟩
    else if isContainerBlockName name then .ok ⟨.container, [pos], pos⟩
    else .error ("Block at position is not a supported container: " ++ name)

/-- Embeds the decision prefix of `openContainerAt` (`chestUtils.ts` lines
143–166): the forbidden check against `getChestByPosition` comes first and
throws before anything else happens; then the container is classified, the
target position of a double chest is redirected to its primary, the block
presence is checked, and (after navigation, which has no bearing on the
result) `bot.openContainer` is invoked on the returned target position.
The returned coordinate is therefore the position that gets opened; every
`Except.error` is raised before the container is opened. -/
def openContainerAt (ws : WorldStore) (world : BlockWorld) (pos : StoredPosition) :
    Except String StoredPosition :=
  let r? := getChestByPosition ws pos
  if (r?.map (fun r => r.forbidden)).getD false then
    .error "Access denied: This chest is forbidden."
  else do
    let det ← detectContainerAt world pos
    let targetPos := if det.type = ContainerType.double_chest then det.primary else pos
    match world targetPos with
    | none => .error "No block loaded at position"
    | some _ => .ok targetPos

/-- Caller-supplied chest reference of `deposit_items` / `withdraw_items`:
a label string or raw coordinates. -/
inductive ChestParam where
  | label (l : String)
  | coords (p : StoredPosition)
deriving DecidableEq, Repr

/-- Outcome of the resolution / policy-check prefix shared by
`deposit_items` and `withdraw_items`. -/
inductive AccessOutcome where
  | noLabeledChest (l : String)
  | accessDenied
  | resolved (pos : StoredPosition)
deriving DecidableEq, Repr

/-- Embeds the chest-resolution and forbidden-check prefix of
`deposit_items` (lines 62–90) and `withdraw_items` (identical code): a
label is resolved through `getChestByLabel` (reporting a missing label
when it yields nothing), coordinates are floored (identity on integer
coordinates); then the resolved position is checked against
`getChestByPosition` and access is denied when the found record is
forbidden.  Only on `resolved` does the skill proceed to open the chest. -/
def resolveChestTarget (ws : WorldStore) (chest : ChestParam) : AccessOutcome :=
  match chest with
  | .label l =>
    match getChestByLabel ws l with
    | none => .noLabeledChest l
    | some r =>
      let pos := r.primary
      match getChestByPosition ws pos with
      | some fr => if fr.forbidden then .accessDenied else .resolved pos
      | none => .resolved pos
  | .coords p =>
    match getChestByPosition ws p with
    | some fr => if fr.forbidden then .accessDenied else .resolved p
    | none => .resolved p

/-- An occupied slot of a container window: the fields `summarize` and the
transfer code read (`name`, `count`). -/
structure Slot where
  name : String
  count : Int
deriving DecidableEq, Repr

/-- A container window as consumed by the slot-accounting helpers: the flat
slot array (empty slots are `none`) and the duck-typed `inventoryStart` /
`inventoryEnd` fields, with `none` modelling a value that is not a number. -/
structure ContainerWindow where
  slots : List (Option Slot)
  inventoryStart : Option Int
  inventoryEnd : Option Int
deriving DecidableEq, Repr

/-- Result of `getContainerSlotInfo`. -/
structure SlotInfo where
  containerStart : Int
  containerEnd : Int
  inventoryStart : Int
  inventoryEnd : Int
  containerSize : Int
deriving DecidableEq, Repr

/-- Embeds `getContainerSlotInfo` (`chestUtils.ts` lines 168–177):
`inventoryStart` defaults to `max(slots.length - 36, 0)` when the window
field is not a number, `inventoryEnd` defaults to `slots.length`, and the
container region is `[0, inventoryStart)`. -/
def getContainerSlotInfo (w : ContainerWindow) : SlotInfo :=
  let totalSlots : Int := w.slots.length
  let inventoryStart :=
    match w.inventoryStart with
    | some v => v
    | none => max (totalSlots - 36) 0
  let inventoryEnd :=
    match w.inventoryEnd with
    | some v => v
    | none => totalSlots
  { containerStart := 0
    containerEnd := inventoryStart
    inventoryStart := inventoryStart
    inventoryEnd := inventoryEnd
    containerSize := inventoryStart - 0 }

/-- JS array indexing `window.slots[i]`: out-of-range access yields
`undefined`, which the loops treat exactly like an empty slot. -/
def slotAt (w : ContainerWindow) (i : Nat) : Option Slot :=
  w.slots.getD i none

/-- Accumulation step of the `summary` object: JS string-keyed objects keep
insertion order, so the record is an association list where an existing key
is incremented in place and a new key is appended. -/
def addCount (acc : List (String × Int)) (name : String) (count : Int) :
    List (String × Int) :=
  match acc with
  | [] => [(name, count)]
  | (n, c) :: rest =>
    if n == name then (n, c + count) :: rest else (n, c) :: addCount rest name count

/-- Loop body of `summarizeContainerContents` over the visited indices. -/
def summarizeLoop (w : ContainerWindow) : List Nat → List (String × Int) → List (String × Int)
  | [], acc => acc
  | i :: is, acc =>
    match slotAt w i with
    | none => summarizeLoop w is acc
    | some it => summarizeLoop w is (addCount acc it.name it.count)

/-- Embeds `summarizeContainerContents` (lines 179–189): iterates `i` from
`containerStart = 0` while `i < containerEnd`, skipping empty slots and
aggregating counts by item name. -/
def summarizeContainerContents (w : ContainerWindow) : List (String × Int) :=
  summarizeLoop w (List.range (getContainerSlotInfo w).containerEnd.toNat) []

/-- Embeds `countFreeContainerSlots` (lines 191–198): the number of empty
slots among indices `[0, containerEnd)`. -/
def countFreeContainerSlots (w : ContainerWindow) : Nat :=
  ((List.range (getContainerSlotInfo w).containerEnd.toNat).filter
    (fun i => (slotAt w i).isNone)).length

end ChestUtils

namespace Transfers

/-- Loop of the one-by-one fallback in `depositType` / `withdrawType`:
`for (let i = 0; i < count; i++) { try move 1; moved++ } catch break`.
The effectful unit move is abstracted by the success oracle `unitOk`
indexed by the attempt number; the loop counts consecutive successes and
stops at the first failure. -/
def unitFallback (unitOk : Nat → Bool) : Nat → Nat → Nat
  | 0, _ => 0
  | n + 1, i => if unitOk i then unitFallback unitOk n (i + 1) + 1 else 0

/-- Embeds `depositType` (`deposit_items.ts` lines 23–41): a single bulk
transfer is attempted first (oracle `bulkOk`); if it throws, units are moved
one at a time until a move fails; the number of units actually moved is
returned and no exception escapes. -/
def depositType (bulkOk : Bool) (unitOk : Nat → Bool) (count : Nat) : Nat :=
  if bulkOk then count else unitFallback unitOk count 0

/-- Embeds `withdrawType` (`withdraw_items` lines 15–33), which is
byte-for-byte the same control flow as `depositType` with `window.withdraw`
in place of `window.deposit`. -/
def withdrawType (bulkOk : Bool) (unitOk : Nat → Bool) (count : Nat) : Nat :=
  if bulkOk then count else unitFallback unitOk count 0

end Transfers

namespace Mutex

/-- Embeds line 6 of `mutex.ts`:
the lock key is `${bot.username || 'bot'}:${key}`.  The username is
`Option String` (`none` for an unset `bot.username`); the JS `||` also
replaces an empty string by the literal `bot`. -/
def mkLockKey (username : Option String) (key : String) : String :=
  (match username with
   | some u => if u = "" then "bot" else u
   | none => "bot") ++ ":" ++ key

/-- A call to `runExclusive`: the bot username and caller key determining
the lock key, and whether its operation resolves (`ok = true`) or rejects
(`ok = false`).  A list of `TaskSpec` lists the calls in submission order. -/
structure TaskSpec where
  username : Option String
  key : String
  ok : Bool
deriving DecidableEq, Repr, Inhabited

/-- Lock key a call actually uses. -/
def lockKeyOf (t : TaskSpec) : String :=
  mkLockKey t.username t.key

/-- Progress of one `runExclusive` call.  `pending`: the call has appended
itself to the chain of its lock key and is awaiting `prev`.  `running`:
`await prev` returned and `fn()` is executing.  `done b`: `fn` settled
(`b = true` resolved, `b = false` rejected); `resolveNext` has been invoked
on both branches, and the result or rejection is delivered to this caller
only. -/
inductive Phase where
  | pending
  | running
  | done (ok : Bool)
deriving DecidableEq, Repr

/-- Whether a phase is completed (the link of that call is resolved). -/
def isDone : Phase → Bool
  | .done _ => true
  | _ => false

/-- Enabledness of call `i`: its awaited `prev` promise has resolved.  At
submission, call `i` stores `prev.then(() => next)` for its lock key, so the
`prev` seen by the next same-key call resolves exactly when both the older
chain and this `next` have resolved; unfolding the chain, `prev` of call `i`
resolves exactly when every earlier call with the same lock key is done
(successfully or not — `resolveNext` fires on both branches). -/
def enabled (tasks : List TaskSpec) (st : Nat → Phase) (i : Nat) : Bool :=
  (List.range i).all fun k =>
    if lockKeyOf (tasks.getD k default) == lockKeyOf (tasks.getD i default) then
      isDone (st k)
    else true

/-- One scheduling step of the cooperative event loop: lets call `i` make
its next transition if possible.  A pending call whose `prev` has resolved
starts running; a running call settles, recording the outcome of its own
operation; a settled call does not change. -/
def stepF (tasks : List TaskSpec) (st : Nat → Phase) (i : Nat) : Nat → Phase :=
  match st i with
  | .pending => if enabled tasks st i then Function.update st i .running else st
  | .running => Function.update st i (.done (tasks.getD i default).ok)
  | .done _ => st

/-- Phase of every call after the event loop interleaves progress steps in
the order given by `sched`, starting from all calls pending. -/
def mutexRun (tasks : List TaskSpec) (sched : List Nat) : Nat → Phase :=
  sched.foldl (stepF tasks) (fun _ => .pending)

/-- The schedule that drives every call to completion in submission order:
each call gets its start step and its finish step in turn. -/
def seqSchedule (n : Nat) : List Nat :=
  (List.range n).flatMap fun i => [i, i]

/-- Promise allocation model for the lock-map bookkeeping of `mutex.ts`.
Every promise object is identified by a distinct numeric id (standing for
its reference identity); the map stores, per lock key, the id of the
currently held chain promise.  `ctr` is the allocation counter. -/
structure LockMapState where
  ctr : Nat
  locks : List (String × Nat)
deriving DecidableEq, Repr

/-- Lookup `locks.get(k)`. -/
def lookupLock (locks : List (String × Nat)) (k : String) : Option Nat :=
  (locks.find? fun e => e.1 == k).map fun e => e.2

/-- Write `locks.set(k, v)`: replace the entry if present, else append. -/
def setLock (locks : List (String × Nat)) (k : String) (v : Nat) : List (String × Nat) :=
  match locks with
  | [] => [(k, v)]
  | e :: rest => if e.1 == k then (k, v) :: rest else e :: setLock rest k v

/-- Erase `locks.delete(k)`. -/
def eraseLock (locks : List (String × Nat)) (k : String) : List (String × Nat) :=
  locks.filter fun e => !(e.1 == k)

/-- Embeds lines 7–10 of `runExclusive` for lock key `lk`: the call reads
`prev` (the stored chain, if any), allocates the fresh promise `next`
(id `ctr`), and stores `prev.then(() => next)` — which is a further fresh
promise object (id `ctr + 1`), distinct from `next`.  Returns the new state
and the id of `next`, against which the finally block will later compare. -/
def submit (s : LockMapState) (lk : String) : LockMapState × Nat :=
  let nextId := s.ctr
  let chainId := s.ctr + 1
  (⟨s.ctr + 2, setLock s.locks lk chainId⟩, nextId)

/-- Embeds the finally block (lines 20–25): after the operation settles,
the entry is deleted only if the stored promise is reference-equal to
`next` (`locks.get(lockKey) === next`). -/
def completeCleanup (s : LockMapState) (lk : String) (nextId : Nat) : LockMapState :=
  if lookupLock s.locks lk = some nextId then ⟨s.ctr, eraseLock s.locks lk⟩ else s

end Mutex

namespace Examples

open ChestStore ChestUtils Mutex

/-- Primary coordinate of the sample forbidden double chest. -/
def vaultPrimary : StoredPosition := ⟨5, 70, 5⟩

/-- Second member coordinate of the sample forbidden double chest. -/
def vaultSecond : StoredPosition := ⟨6, 70, 5⟩

/-- A forbidden double-chest record labeled vault. -/
def vaultRecord : ChestRecord :=
  { id := "vault-1", label := "vault", forbidden := true,
    type := ContainerType.double_chest,
    positions := [vaultPrimary, vaultSecond], primary := vaultPrimary,
    dimension := "overworld", createdAt := "2024-01-01", updatedAt := "2024-01-01" }

/-- A world store holding only the forbidden vault record. -/
def vaultStore : WorldStore := ⟨[vaultRecord]⟩

/-- An empty world store. -/
def emptyStore : WorldStore := ⟨[]⟩

/-- An upsert input carrying a caller-supplied nonempty id. -/
def suppliedIdRecord : ChestRecord :=
  { id := "keep-me", label := "stash", type := ContainerType.single_chest,
    positions := [⟨0, 64, 0⟩], primary := ⟨0, 64, 0⟩,
    dimension := "overworld", createdAt := "", updatedAt := "" }

/-- An upsert input with an empty id, as `label_chest` produces. -/
def plainRecord : ChestRecord :=
  { id := "", label := "vault", type := ContainerType.single_chest,
    positions := [⟨1, 64, 1⟩], primary := ⟨1, 64, 1⟩,
    dimension := "overworld", createdAt := "", updatedAt := "" }

/-- A block world holding two adjacent chest blocks at (10,64,10) and
(11,64,10) and nothing else. -/
def pairWorld : BlockWorld := fun p =>
  if p = ⟨10, 64, 10⟩ ∨ p = ⟨11, 64, 10⟩ then some "chest" else none

/-- A block world with no loaded blocks. -/
def voidWorld : BlockWorld := fun _ => none

/-- A container window with 63 slots and no numeric inventory fields. -/
def exWindow : ContainerWindow :=
  { slots := List.replicate 3 (some ⟨"stone", 32⟩) ++ List.replicate 60 none,
    inventoryStart := none, inventoryEnd := none }

/-- Two calls on distinct keys by the same (unset-name) bot. -/
def overlapTasks : List TaskSpec :=
  [⟨none, "alpha", true⟩, ⟨none, "beta", true⟩]

/-- Two calls on the same key; the first rejects, the second resolves. -/
def serialTasks : List TaskSpec :=
  [⟨none, "container", false⟩, ⟨none, "container", true⟩]

end Examples

theorem Transfers.unitFallback_le (u : Nat → Bool) : ∀ n i, Transfers.unitFallback u n i ≤ n := by
  intro n
  induction n with
  | zero => intro i; simp [Transfers.unitFallback]
  | succ n ih =>
    intro i
    simp only [Transfers.unitFallback]
    split
    · exact Nat.succ_le_succ (ih (i + 1))
    · exact Nat.zero_le _

theorem Transfers.unitFallback_eq_takeWhile (u : Nat → Bool) :
    ∀ n i, Transfers.unitFallback u n i = ((List.range' i n).takeWhile u).length := by
  intro n
  induction n with
  | zero => intro i; simp [Transfers.unitFallback]
  | succ n ih =>
    intro i
    rw [List.range'_succ]
    simp only [Transfers.unitFallback, List.takeWhile_cons]
    by_cases h : u i
    · simp [h, ih]
    · simp [h]

/-- C8: `depositType` and `withdrawType` move at most the requested count
`N`; the moved count plus the reported remaining count `N - moved` equals
`N`; a successful bulk transfer moves everything; on bulk failure the moved
count is the number of leading successful unit transfers (the fallback
stops at the first failing unit move).  The model returns a plain number,
mirroring that both helpers catch every transfer exception. -/
theorem C8_transfer_conservation (bulkOk : Bool) (unitOk : Nat → Bool) (count : Nat) :
    (Transfers.depositType bulkOk unitOk count ≤ count
      ∧ Transfers.depositType bulkOk unitOk count
          + (count - Transfers.depositType bulkOk unitOk count) = count
      ∧ (bulkOk = true → Transfers.depositType bulkOk unitOk count = count)
      ∧ (bulkOk = false →
          Transfers.depositType bulkOk unitOk count
            = ((List.range count).takeWhile unitOk).length))
    ∧ (Transfers.withdrawType bulkOk unitOk count ≤ count
      ∧ Transfers.withdrawType bulkOk unitOk count
          + (count - Transfers.withdrawType bulkOk unitOk count) = count
      ∧ (bulkOk = true → Transfers.withdrawType bulkOk unitOk count = count)
      ∧ (bulkOk = false →
          Transfers.withdrawType bulkOk unitOk count
            = ((List.range count).takeWhile unitOk).length)) := by
  have hle : Transfers.depositType bulkOk unitOk count ≤ count := by
    cases bulkOk with
    | true => simp [Transfers.depositType]
    | false => simpa [Transfers.depositType] using Transfers.unitFallback_le unitOk count 0
  have hle2 : Transfers.withdrawType bulkOk unitOk count ≤ count := by
    cases bulkOk with
    | true => simp [Transfers.withdrawType]
    | false => simpa [Transfers.withdrawType] using Transfers.unitFallback_le unitOk count 0
  refine ⟨⟨hle, Nat.add_sub_cancel' hle, ?_, ?_⟩, ⟨hle2, Nat.add_sub_cancel' hle2, ?_, ?_⟩⟩
  · intro h; simp [Transfers.depositType, h]
  · intro h
    simp [Transfers.depositType, h, Transfers.unitFallback_eq_takeWhile, List.range_eq_range']
  · intro h; simp [Transfers.withdrawType, h]
  · intro h
    simp [Transfers.withdrawType, h, Transfers.unitFallback_eq_takeWhile, List.range_eq_range']

/-- Witness for C8 at concrete inputs: a failing bulk transfer with the
first two unit moves succeeding out of five requested, and a successful
bulk withdrawal of seven. -/
theorem C8_transfer_conservation_witness :
    Transfers.depositType false (fun i => decide (i < 2)) 5
        = ((List.range 5).takeWhile (fun i => decide (i < 2))).length
      ∧ Transfers.depositType false (fun i => decide (i < 2)) 5
          + (5 - Transfers.depositType false (fun i => decide (i < 2)) 5) = 5
      ∧ Transfers.withdrawType true (fun _ => false) 7 = 7 :=
  ⟨(C8_transfer_conservation false (fun i => decide (i < 2)) 5).1.2.2.2 rfl,
   (C8_transfer_conservation false (fun i => decide (i < 2)) 5).1.2.1,
   (C8_transfer_conservation true (fun _ => false) 7).2.2.2.1 rfl⟩

/-- C10: when the window field `inventoryStart` is not a number,
`getContainerSlotInfo` computes `containerEnd = max(slots.length - 36, 0)`,
the container size is nonnegative, the summarization and free-slot loops
iterate exactly over the indices `[0, containerEnd)`, and every such index
is below `slots.length`. -/
theorem C10_slot_accounting_bounds (w : ChestUtils.ContainerWindow)
    (h : w.inventoryStart = none) :
    (ChestUtils.getContainerSlotInfo w).containerEnd
        = max ((w.slots.length : Int) - 36) 0
      ∧ 0 ≤ (ChestUtils.getContainerSlotInfo w).containerSize
      ∧ ChestUtils.summarizeContainerContents w =
          ChestUtils.summarizeLoop w
            (List.range (ChestUtils.getContainerSlotInfo w).containerEnd.toNat) []
      ∧ ChestUtils.countFreeContainerSlots w =
          ((List.range (ChestUtils.getContainerSlotInfo w).containerEnd.toNat).filter
            (fun i => (ChestUtils.slotAt w i).isNone)).length
      ∧ ∀ i ∈ List.range (ChestUtils.getContainerSlotInfo w).containerEnd.toNat,
          i < w.slots.length := by
  refine ⟨?_, ?_, rfl, rfl, ?_⟩
  · simp [ChestUtils.getContainerSlotInfo, h]
  · simp only [ChestUtils.getContainerSlotInfo, h, sub_zero]
    exact le_max_right _ _
  · intro i hi
    rw [List.mem_range] at hi
    simp only [ChestUtils.getContainerSlotInfo, h] at hi
    rw [Int.max_def] at hi
    split at hi <;> omega

/-- Witness for C10: a 63-slot window with duck-typed inventory fields has
container region `[0, 27)`, all indices in bounds. -/
theorem C10_slot_accounting_bounds_witness :
    (ChestUtils.getContainerSlotInfo Examples.exWindow).containerEnd
        = max ((Examples.exWindow.slots.length : Int) - 36) 0
      ∧ ∀ i ∈ List.range
          (ChestUtils.getContainerSlotInfo Examples.exWindow).containerEnd.toNat,
          i < Examples.exWindow.slots.length :=
  ⟨(C10_slot_accounting_bounds Examples.exWindow rfl).1,
   (C10_slot_accounting_bounds Examples.exWindow rfl).2.2.2.2⟩

theorem Mutex.lookupLock_setLock (l : List (String × Nat)) (k : String) (v : Nat) :
    Mutex.lookupLock (Mutex.setLock l k v) k = some v := by
  induction l with
  | nil => simp [Mutex.setLock, Mutex.lookupLock, List.find?]
  | cons e rest ih =>
    by_cases h : e.1 == k
    · simp [Mutex.setLock, Mutex.lookupLock, List.find?, h]
    · simp only [Mutex.setLock, h, Bool.false_eq_true, if_false]
      simpa [Mutex.lookupLock, List.find?, h] using ih

/-- C3: the lock-map entry of a key is NOT removed when its chain
empties.  The map stores the chain promise `prev.then(() => next)` (a fresh
object, id `ctr + 1`), while the finally block compares the stored value
against `next` (id `ctr`) by reference; the comparison can never succeed,
so after a lone call submits and completes with nothing queued, the entry
is still present (holding the chain promise id).  This contradicts the
cleanup intent stated in the source comment on lines 21–23. -/
theorem C3_lock_entry_never_removed (s : Mutex.LockMapState) (lk : String) :
    Mutex.lookupLock
        ((Mutex.completeCleanup (Mutex.submit s lk).1 lk (Mutex.submit s lk).2).locks) lk
      = some (s.ctr + 1) := by
  have hl : Mutex.lookupLock (Mutex.setLock s.locks lk (s.ctr + 1)) lk
      = some (s.ctr + 1) := Mutex.lookupLock_setLock s.locks lk (s.ctr + 1)
  simp [Mutex.submit, Mutex.completeCleanup, hl]

/-- C9 counterexample: a bot literally named `bot` and a bot with unset
username are different usernames but produce the identical lock key, hence
share one lock-map entry and are serialized against each other. -/
theorem C9_counterexample :
    Mutex.mkLockKey (some "bot") "container" = Mutex.mkLockKey none "container"
      ∧ (some "bot" : Option String) ≠ (none : Option String) := by
  exact ⟨by decide, by simp⟩

theorem String.append_right_cancel_str (a b c : String) (h : a ++ c = b ++ c) : a = b := by
  apply String.ext
  have hd := congrArg String.data h
  simp only [String.data_append] at hd
  exact List.append_left_injective c.data hd

/-- C9 as amended: the lock key is the caller key prefixed with the
username, the literal `bot` standing in when the username is unset or
empty; two calls with the same key and distinct nonempty usernames use
distinct lock-map entries, while an unset username, an empty username and
the literal username `bot` all share the same lock key (and hence a single
chain). -/
theorem C9_lock_key_prefixing :
    (∀ u1 u2 k, u1 ≠ "" → u2 ≠ "" → u1 ≠ u2 →
       Mutex.mkLockKey (some u1) k ≠ Mutex.mkLockKey (some u2) k)
    ∧ (∀ u k, (u = none ∨ u = some "" ∨ u = some "bot") →
       Mutex.mkLockKey u k = Mutex.mkLockKey none k) := by
  constructor
  · intro u1 u2 k h1 h2 hne heq
    simp only [Mutex.mkLockKey, if_neg h1, if_neg h2] at heq
    have h3 := String.append_right_cancel_str (u1 ++ ":") (u2 ++ ":") k heq
    have h4 := String.append_right_cancel_str u1 u2 ":" h3
    exact hne h4
  · intro u k hu
    rcases hu with h | h | h <;> subst h <;> rfl

/-- Witness for C9 amended: distinct nonempty usernames yield distinct
lock keys; the empty username collapses to the unset case. -/
theorem C9_lock_key_prefixing_witness :
    Mutex.mkLockKey (some "alice") "container" ≠ Mutex.mkLockKey (some "carol") "container"
      ∧ Mutex.mkLockKey (some "") "container" = Mutex.mkLockKey none "container" :=
  ⟨C9_lock_key_prefixing.1 "alice" "carol" "container" (by decide) (by decide) (by decide),
   C9_lock_key_prefixing.2 (some "") "container" (Or.inr (Or.inl rfl))⟩

/-- C2 counterexample: for a forbidden record labeled vault, addressing it
by its label does NOT fail with an access denial: `getChestByLabel` skips
forbidden records, so the skill reports that no labeled chest was found
(a resolution failure), never reaching the denial check. -/
theorem C2_counterexample :
    ChestUtils.resolveChestTarget Examples.vaultStore (ChestUtils.ChestParam.label "vault")
        = ChestUtils.AccessOutcome.noLabeledChest "vault"
      ∧ ChestUtils.resolveChestTarget Examples.vaultStore (ChestUtils.ChestParam.label "vault")
        ≠ ChestUtils.AccessOutcome.accessDenied := by
  exact ⟨by decide, by decide⟩

/-- C2 as amended: a forbidden record is never returned by `listChests`
(for any `includeHidden` flag); an access attempt addressing it by a
coordinate whose position lookup yields the forbidden record fails with the
explicit access denial before the container is opened; by label, the
attempt also fails before the container is opened, but with a
labeled-chest-not-found resolution error, because label lookup never
returns a forbidden record. -/
theorem C2_forbidden_access :
    (∀ (ws : ChestStore.WorldStore) (inc : Bool) (c : ChestStore.ChestRecord),
        c ∈ ChestStore.listChests ws inc → c.forbidden = false)
    ∧ (∀ (ws : ChestStore.WorldStore) (world : ChestUtils.BlockWorld)
        (pos : ChestStore.StoredPosition) (c : ChestStore.ChestRecord),
        ChestStore.getChestByPosition ws pos = some c → c.forbidden = true →
        ChestUtils.openContainerAt ws world pos
          = Except.error "Access denied: This chest is forbidden.")
    ∧ (∀ (ws : ChestStore.WorldStore) (l : String) (c : ChestStore.ChestRecord),
        ChestStore.getChestByLabel ws l = some c → c.forbidden = false)
    ∧ (∀ (ws : ChestStore.WorldStore) (l : String),
        ChestStore.getChestByLabel ws l = none →
        ChestUtils.resolveChestTarget ws (ChestUtils.ChestParam.label l)
          = ChestUtils.AccessOutcome.noLabeledChest l) := by
  refine ⟨?_, ?_, ?_, ?_⟩
  · intro ws inc c hc
    have hp := (List.mem_filter.mp hc).2
    simp only [Bool.and_eq_true, Bool.not_eq_true'] at hp
    exact hp.2
  · intro ws world pos c hfind hforb
    simp [ChestUtils.openContainerAt, hfind, hforb]
  · intro ws l c hfind
    have hp := List.find?_some hfind
    simp only [Bool.and_eq_true, Bool.not_eq_true'] at hp
    exact hp.1.2
  · intro ws l hnone
    simp [ChestUtils.resolveChestTarget, hnone]

/-- Witness for C2 amended: the forbidden vault double chest is denied at
both of its member coordinates before opening. -/
theorem C2_forbidden_access_witness :
    ChestUtils.openContainerAt Examples.vaultStore Examples.voidWorld Examples.vaultPrimary
        = Except.error "Access denied: This chest is forbidden."
      ∧ ChestUtils.openContainerAt Examples.vaultStore Examples.voidWorld Examples.vaultSecond
        = Except.error "Access denied: This chest is forbidden."
      ∧ ChestStore.listChests Examples.vaultStore true = [] :=
  ⟨C2_forbidden_access.2.1 Examples.vaultStore Examples.voidWorld Examples.vaultPrimary
      Examples.vaultRecord (by decide) (by decide),
   C2_forbidden_access.2.1 Examples.vaultStore Examples.voidWorld Examples.vaultSecond
      Examples.vaultRecord (by decide) (by decide),
   by decide⟩

theorem ChestStore.find?_eq_some_of_unique (l : List ChestStore.ChestRecord)
    (q : ChestStore.ChestRecord → Bool) (c : ChestStore.ChestRecord)
    (hmem : c ∈ l) (hq : q c = true) (huniq : ∀ x ∈ l, q x = true → x = c) :
    l.find? q = some c := by
  induction l with
  | nil => cases hmem
  | cons h t ih =>
    by_cases hh : q h
    · rw [List.find?_cons_of_pos _ hh]
      exact congrArg some (huniq h (List.mem_cons_self h t) hh)
    · rw [List.find?_cons_of_neg _ hh]
      have hct : c ∈ t := by
        rcases List.mem_cons.mp hmem with rfl | hm
        · exact absurd hq hh
        · exact hm
      exact ih hct fun x hx hqx => huniq x (List.mem_cons_of_mem h hx) hqx

/-- C6: `getChestByPosition` returns a record exactly when the queried
coordinate equals some element of the positions array of a non-destroyed
record; the returned record is non-destroyed and contains the coordinate;
the lookup is blind to the forbidden flag (it commutes with arbitrary
reassignment of `forbidden`, so forbidden records are returned); and when a
non-destroyed record is the only one containing either member coordinate of
a composite, both coordinates resolve to that same record. -/
theorem C6_get_by_position (ws : ChestStore.WorldStore) :
    (∀ pos, (ChestStore.getChestByPosition ws pos).isSome ↔
        ∃ c ∈ ws.chests, c.destroyed = false
          ∧ c.positions.any (fun p => ChestStore.posEquals p pos) = true)
    ∧ (∀ pos c, ChestStore.getChestByPosition ws pos = some c →
        c.destroyed = false
          ∧ c.positions.any (fun p => ChestStore.posEquals p pos) = true)
    ∧ (∀ (g : ChestStore.ChestRecord → Bool) pos,
        ChestStore.getChestByPosition ⟨ws.chests.map fun c => { c with forbidden := g c }⟩ pos
          = (ChestStore.getChestByPosition ws pos).map fun c => { c with forbidden := g c })
    ∧ (∀ p1 p2 c, c ∈ ws.chests → c.destroyed = false →
        c.positions.any (fun p => ChestStore.posEquals p p1) = true →
        c.positions.any (fun p => ChestStore.posEquals p p2) = true →
        (∀ c2 ∈ ws.chests, c2.destroyed = false →
          (c2.positions.any (fun p => ChestStore.posEquals p p1) = true
            ∨ c2.positions.any (fun p => ChestStore.posEquals p p2) = true) → c2 = c) →
        ChestStore.getChestByPosition ws p1 = some c
          ∧ ChestStore.getChestByPosition ws p2 = some c) := by
  refine ⟨?_, ?_, ?_, ?_⟩
  · intro pos
    rw [ChestStore.getChestByPosition, List.find?_isSome]
    constructor
    · rintro ⟨a, ha, hp⟩
      simp only [Bool.and_eq_true, Bool.not_eq_true'] at hp
      exact ⟨a, ha, hp.1, hp.2⟩
    · rintro ⟨a, ha, hd, hm⟩
      exact ⟨a, ha, by simp [hd, hm]⟩
  · intro pos c hfind
    have hp := List.find?_some hfind
    simp only [Bool.and_eq_true, Bool.not_eq_true'] at hp
    exact hp
  · intro g pos
    rw [ChestStore.getChestByPosition, ChestStore.getChestByPosition, List.find?_map]
    rfl
  · intro p1 p2 c hmem hd h1 h2 huniq
    constructor
    · exact ChestStore.find?_eq_some_of_unique ws.chests _ c hmem (by simp [hd, h1])
        fun x hx hqx => by
          simp only [Bool.and_eq_true, Bool.not_eq_true'] at hqx
          exact huniq x hx hqx.1 (Or.inl hqx.2)
    · exact ChestStore.find?_eq_some_of_unique ws.chests _ c hmem (by simp [hd, h2])
        fun x hx hqx => by
          simp only [Bool.and_eq_true, Bool.not_eq_true'] at hqx
          exact huniq x hx hqx.1 (Or.inr hqx.2)

theorem ChestStore.updateFirst_none (p : ChestStore.ChestRecord → Bool)
    (f : ChestStore.ChestRecord → ChestStore.ChestRecord) :
    ∀ l : List ChestStore.ChestRecord, l.find? p = none →
      ChestStore.updateFirst p f l = (none, l) := by
  intro l
  induction l with
  | nil => intro _; rfl
  | cons a t ih =>
    intro h
    rw [List.find?_eq_none] at h
    have ha : p a = false := by
      have := h a (List.mem_cons_self a t)
      simpa using this
    have ht : t.find? p = none := by
      rw [List.find?_eq_none]
      intro x hx
      exact h x (List.mem_cons_of_mem a hx)
    simp [ChestStore.updateFirst, ha, ih ht]

theorem ChestStore.updateFirst_spec (p : ChestStore.ChestRecord → Bool)
    (f : ChestStore.ChestRecord → ChestStore.ChestRecord) :
    ∀ (l : List ChestStore.ChestRecord) (c : ChestStore.ChestRecord), l.find? p = some c →
      ∃ l1 l2, l = l1 ++ c :: l2 ∧ (∀ x ∈ l1, p x = false) ∧ p c = true ∧
        ChestStore.updateFirst p f l = (some (f c), l1 ++ f c :: l2) := by
  intro l
  induction l with
  | nil => intro c h; cases h
  | cons a t ih =>
    intro c h
    by_cases ha : p a
    · rw [List.find?_cons_of_pos _ ha] at h
      obtain rfl : a = c := by injection h
      exact ⟨[], t, rfl, by simp, ha, by simp [ChestStore.updateFirst, ha]⟩
    · rw [List.find?_cons_of_neg _ ha] at h
      obtain ⟨l1, l2, hdec, hl1, hc, hu⟩ := ih c h
      refine ⟨a :: l1, l2, by rw [hdec]; rfl, ?_, hc, ?_⟩
      · intro x hx
        rcases List.mem_cons.mp hx with rfl | hm
        · simpa using ha
        · exact hl1 x hm
      · simp [ChestStore.updateFirst, ha, hu]

theorem ChestStore.posEquals_self (a : ChestStore.StoredPosition) :
    ChestStore.posEquals a a = true := by
  simp [ChestStore.posEquals]

theorem ChestStore.labelMatches_overwrite (r c : ChestStore.ChestRecord) (now : String) :
    ChestStore.labelMatches r (ChestStore.overwriteFields r now c) = true := by
  simp [ChestStore.labelMatches, ChestStore.overwriteFields]

theorem ChestStore.primaryMatches_overwrite (r c : ChestStore.ChestRecord) (now : String) :
    ChestStore.primaryMatches r (ChestStore.overwriteFields r now c) = true := by
  simp [ChestStore.primaryMatches, ChestStore.overwriteFields, ChestStore.posEquals_self]

theorem ChestStore.primaryMatches_fresh (r : ChestStore.ChestRecord) (now fid : String) :
    ChestStore.primaryMatches r (ChestStore.freshRecord r now fid) = true := by
  simp [ChestStore.primaryMatches, ChestStore.freshRecord, ChestStore.posEquals_self]

theorem ChestStore.upsert_has_primary_witness (ws : ChestStore.WorldStore)
    (r : ChestStore.ChestRecord) (now fid : String) :
    ∃ x ∈ (ChestStore.upsertChest ws r now fid).2.chests,
      ChestStore.primaryMatches r x = true := by
  rcases hfl : ws.chests.find? (ChestStore.labelMatches r) with _ | c
  · rcases hfp : ws.chests.find? (ChestStore.primaryMatches r) with _ | c
    · refine ⟨ChestStore.freshRecord r now fid, ?_, ChestStore.primaryMatches_fresh r now fid⟩
      simp [ChestStore.upsertChest, ChestStore.updateFirst_none _ _ _ hfl,
        ChestStore.updateFirst_none _ _ _ hfp]
    · obtain ⟨l1, l2, hdec, _, _, hu⟩ :=
        ChestStore.updateFirst_spec (ChestStore.primaryMatches r)
          (ChestStore.overwriteFields r now) ws.chests c hfp
      refine ⟨ChestStore.overwriteFields r now c, ?_, ChestStore.primaryMatches_overwrite r c now⟩
      simp [ChestStore.upsertChest, ChestStore.updateFirst_none _ _ _ hfl, hu]
  · obtain ⟨l1, l2, hdec, _, _, hu⟩ :=
      ChestStore.updateFirst_spec (ChestStore.labelMatches r)
        (ChestStore.overwriteFields r now) ws.chests c hfl
    refine ⟨ChestStore.overwriteFields r now c, ?_, ChestStore.primaryMatches_overwrite r c now⟩
    simp [ChestStore.upsertChest, hu]

theorem ChestStore.upsert_length_of_match (ws : ChestStore.WorldStore)
    (r : ChestStore.ChestRecord) (now fid : String)
    (hx : ∃ x ∈ ws.chests,
      ChestStore.labelMatches r x = true ∨ ChestStore.primaryMatches r x = true) :
    (ChestStore.upsertChest ws r now fid).2.chests.length = ws.chests.length := by
  rcases hfl : ws.chests.find? (ChestStore.labelMatches r) with _ | c
  · rcases hfp : ws.chests.find? (ChestStore.primaryMatches r) with _ | c
    · exfalso
      obtain ⟨x, hmem, hor⟩ := hx
      rw [List.find?_eq_none] at hfl hfp
      rcases hor with h | h
      · exact absurd h (by simpa using hfl x hmem)
      · exact absurd h (by simpa using hfp x hmem)
    · obtain ⟨l1, l2, hdec, _, _, hu⟩ :=
        ChestStore.updateFirst_spec (ChestStore.primaryMatches r)
          (ChestStore.overwriteFields r now) ws.chests c hfp
      simp only [ChestStore.upsertChest, ChestStore.updateFirst_none _ _ _ hfl, hu]
      rw [hdec]
      simp
  · obtain ⟨l1, l2, hdec, _, _, hu⟩ :=
      ChestStore.updateFirst_spec (ChestStore.labelMatches r)
        (ChestStore.overwriteFields r now) ws.chests c hfl
    simp only [ChestStore.upsertChest, hu]
    rw [hdec]
    simp

theorem ChestStore.upsert_count_one (ws : ChestStore.WorldStore)
    (r : ChestStore.ChestRecord) (now fid : String)
    (htrim : ChestStore.normalizeLabel r.label = r.label)
    (h0 : ws.chests.countP (ChestStore.labelMatches r) = 0) :
    (ChestStore.upsertChest ws r now fid).2.chests.countP (ChestStore.labelMatches r) = 1 := by
  have hfl : ws.chests.find? (ChestStore.labelMatches r) = none := by
    rw [List.find?_eq_none]
    intro x hx
    have := (List.countP_eq_zero.mp h0) x hx
    simpa using this
  rcases hfp : ws.chests.find? (ChestStore.primaryMatches r) with _ | c
  · have hfreshlbl : ChestStore.labelMatches r (ChestStore.freshRecord r now fid) = true := by
      simp [ChestStore.labelMatches, ChestStore.freshRecord, htrim]
    simp [ChestStore.upsertChest, ChestStore.updateFirst_none _ _ _ hfl,
      ChestStore.updateFirst_none _ _ _ hfp, List.countP_append, h0,
      List.countP_cons, hfreshlbl]
  · obtain ⟨l1, l2, hdec, _, _, hu⟩ :=
      ChestStore.updateFirst_spec (ChestStore.primaryMatches r)
        (ChestStore.overwriteFields r now) ws.chests c hfp
    have hsplit := h0
    rw [hdec, List.countP_append, List.countP_cons] at hsplit
    simp only [ChestStore.upsertChest, ChestStore.updateFirst_none _ _ _ hfl, hu]
    have hone : (if ChestStore.labelMatches r (ChestStore.overwriteFields r now c) = true
        then 1 else 0) = 1 := by
      simp [ChestStore.labelMatches_overwrite]
    rw [List.countP_append, List.countP_cons, hone]
    by_cases hc0 : ChestStore.labelMatches r c = true
    · rw [if_pos hc0] at hsplit; omega
    · rw [if_neg hc0] at hsplit; omega

theorem ChestStore.upsert_count_preserved (ws : ChestStore.WorldStore)
    (r : ChestStore.ChestRecord) (now fid : String)
    (h1 : ws.chests.countP (ChestStore.labelMatches r) = 1) :
    (ChestStore.upsertChest ws r now fid).2.chests.countP (ChestStore.labelMatches r) = 1 := by
  have hex : ∃ x ∈ ws.chests, ChestStore.labelMatches r x = true := by
    by_contra hno
    push_neg at hno
    have : ws.chests.countP (ChestStore.labelMatches r) = 0 := by
      rw [List.countP_eq_zero]
      intro a ha
      simpa using hno a ha
    omega
  have hsome : (ws.chests.find? (ChestStore.labelMatches r)).isSome := by
    rw [List.find?_isSome]
    obtain ⟨x, hx, hp⟩ := hex
    exact ⟨x, hx, hp⟩
  rcases hfl : ws.chests.find? (ChestStore.labelMatches r) with _ | c
  · rw [hfl] at hsome; cases hsome
  · obtain ⟨l1, l2, hdec, _, hc, hu⟩ :=
      ChestStore.updateFirst_spec (ChestStore.labelMatches r)
        (ChestStore.overwriteFields r now) ws.chests c hfl
    have hsplit := h1
    rw [hdec, List.countP_append, List.countP_cons] at hsplit
    simp only [ChestStore.upsertChest, hu]
    rw [List.countP_append, List.countP_cons]
    simp only [ChestStore.labelMatches_overwrite]
    simp only [hc, if_pos] at hsplit ⊢
    omega

theorem takeWhileAux_stop (s : String) (stopPos : String.Pos) (p : Char → Bool) (i : String.Pos)
    (h : i < stopPos) (hp : p (s.get i) = false) :
    Substring.takeWhileAux s stopPos p i = i := by
  unfold Substring.takeWhileAux
  rw [dif_pos h, hp]
  simp

theorem takeRightWhileAux_stop (s : String) (begPos : String.Pos) (p : Char → Bool)
    (i : String.Pos) (h : begPos < i) (hp : p (s.get (s.prev i)) = false) :
    Substring.takeRightWhileAux s begPos p i = i := by
  unfold Substring.takeRightWhileAux
  rw [dif_pos h]
  simp [hp]

theorem trim_vault : "vault".trim = "vault" := by
  have h1 : Substring.takeWhileAux "vault" ⟨5⟩ Char.isWhitespace ⟨0⟩ = ⟨0⟩ :=
    takeWhileAux_stop _ _ _ _ (by decide) (by decide)
  have h2 : Substring.takeRightWhileAux "vault" ⟨0⟩ Char.isWhitespace ⟨5⟩ = ⟨5⟩ :=
    takeRightWhileAux_stop _ _ _ _ (by decide) (by decide)
  show (Substring.toString
    ⟨"vault", Substring.takeWhileAux "vault" ⟨5⟩ Char.isWhitespace ⟨0⟩,
      Substring.takeRightWhileAux "vault"
        (Substring.takeWhileAux "vault" ⟨5⟩ Char.isWhitespace ⟨0⟩)
        Char.isWhitespace ⟨5⟩⟩) = "vault"
  rw [h1, h2]
  decide

/-- C5 counterexample: on an empty store, upserting a record whose caller
supplied a nonempty id appends a record keeping that supplied id — not a
freshly generated one — refuting the claim that a missed match always
appends with a fresh unique id. -/
theorem C5_counterexample :
    (ChestStore.upsertChest Examples.emptyStore Examples.suppliedIdRecord "t1" "chest-fresh-1").1.id
        = "keep-me"
      ∧ "keep-me" ≠ "chest-fresh-1" :=
  ⟨by decide, by decide⟩

/-- C5 as amended: `upsertChest` resolves an existing record by a
case-insensitive label match first, else by an exact primary-coordinate
match; when found it overwrites the mutable fields, bumps `updatedAt` to
the call time, clears `destroyed`, keeps the id and creation time, and
returns that record; otherwise it appends a record with fresh timestamps
whose id is freshly generated only when the input record has an empty id
(a nonempty caller-supplied id is kept).  Consequently a second upsert of
the same record never appends, and starting from a store with no record
matching the (trimmed) label, two upserts with the same label and primary
leave exactly one record carrying that label. -/
theorem C5_upsert_merge :
    (∀ (ws : ChestStore.WorldStore) (r : ChestStore.ChestRecord) (now fid : String)
        (c : ChestStore.ChestRecord),
        ws.chests.find? (ChestStore.labelMatches r) = some c →
        (ChestStore.upsertChest ws r now fid).1 = ChestStore.overwriteFields r now c
          ∧ (ChestStore.upsertChest ws r now fid).2.chests.length = ws.chests.length)
    ∧ (∀ (ws : ChestStore.WorldStore) (r : ChestStore.ChestRecord) (now fid : String)
        (c : ChestStore.ChestRecord),
        ws.chests.find? (ChestStore.labelMatches r) = none →
        ws.chests.find? (ChestStore.primaryMatches r) = some c →
        (ChestStore.upsertChest ws r now fid).1 = ChestStore.overwriteFields r now c
          ∧ (ChestStore.upsertChest ws r now fid).2.chests.length = ws.chests.length)
    ∧ (∀ (ws : ChestStore.WorldStore) (r : ChestStore.ChestRecord) (now fid : String),
        ws.chests.find? (ChestStore.labelMatches r) = none →
        ws.chests.find? (ChestStore.primaryMatches r) = none →
        (ChestStore.upsertChest ws r now fid).2.chests
            = ws.chests ++ [ChestStore.freshRecord r now fid]
          ∧ (ChestStore.upsertChest ws r now fid).1 = ChestStore.freshRecord r now fid)
    ∧ (∀ (r : ChestStore.ChestRecord) (now fid : String),
        (ChestStore.freshRecord r now fid).id = (if r.id = "" then fid else r.id)
          ∧ (ChestStore.freshRecord r now fid).createdAt = now
          ∧ (ChestStore.freshRecord r now fid).updatedAt = now
          ∧ (ChestStore.freshRecord r now fid).destroyed = false)
    ∧ (∀ (ws : ChestStore.WorldStore) (r : ChestStore.ChestRecord) (n1 f1 n2 f2 : String),
        ((ChestStore.upsertChest (ChestStore.upsertChest ws r n1 f1).2 r n2 f2).2).chests.length
          = ((ChestStore.upsertChest ws r n1 f1).2).chests.length)
    ∧ (∀ (ws : ChestStore.WorldStore) (r : ChestStore.ChestRecord) (n1 f1 n2 f2 : String),
        ChestStore.normalizeLabel r.label = r.label →
        ws.chests.countP (ChestStore.labelMatches r) = 0 →
        ((ChestStore.upsertChest (ChestStore.upsertChest ws r n1 f1).2 r n2 f2).2).chests.countP
            (ChestStore.labelMatches r) = 1) := by
  refine ⟨?_, ?_, ?_, ?_, ?_, ?_⟩
  · intro ws r now fid c h
    obtain ⟨l1, l2, hdec, _, _, hu⟩ :=
      ChestStore.updateFirst_spec (ChestStore.labelMatches r)
        (ChestStore.overwriteFields r now) ws.chests c h
    constructor
    · simp [ChestStore.upsertChest, hu]
    · simp only [ChestStore.upsertChest, hu]
      rw [hdec]
      simp
  · intro ws r now fid c hl h
    obtain ⟨l1, l2, hdec, _, _, hu⟩ :=
      ChestStore.updateFirst_spec (ChestStore.primaryMatches r)
        (ChestStore.overwriteFields r now) ws.chests c h
    constructor
    · simp [ChestStore.upsertChest, ChestStore.updateFirst_none _ _ _ hl, hu]
    · simp only [ChestStore.upsertChest, ChestStore.updateFirst_none _ _ _ hl, hu]
      rw [hdec]
      simp
  · intro ws r now fid hl hp
    constructor
    · simp [ChestStore.upsertChest, ChestStore.updateFirst_none _ _ _ hl,
        ChestStore.updateFirst_none _ _ _ hp]
    · simp [ChestStore.upsertChest, ChestStore.updateFirst_none _ _ _ hl,
        ChestStore.updateFirst_none _ _ _ hp]
  · intro r now fid
    exact ⟨rfl, rfl, rfl, rfl⟩
  · intro ws r n1 f1 n2 f2
    apply ChestStore.upsert_length_of_match
    obtain ⟨x, hx, hpm⟩ := ChestStore.upsert_has_primary_witness ws r n1 f1
    exact ⟨x, hx, Or.inr hpm⟩
  · intro ws r n1 f1 n2 f2 htrim h0
    exact ChestStore.upsert_count_preserved _ r n2 f2
      (ChestStore.upsert_count_one ws r n1 f1 htrim h0)

/-- Witness for C5 amended: the Vault scenario — upserting the vault record
twice on an empty store leaves exactly one record matching the label, and
the append keeps fresh timestamps with the generated id. -/
theorem C5_upsert_merge_witness :
    ((ChestStore.upsertChest
        (ChestStore.upsertChest Examples.emptyStore Examples.plainRecord "t1" "id-1").2
        Examples.plainRecord "t2" "id-2").2).chests.countP
        (ChestStore.labelMatches Examples.plainRecord) = 1
      ∧ (ChestStore.freshRecord Examples.plainRecord "t1" "id-1").id
          = (if Examples.plainRecord.id = "" then "id-1" else Examples.plainRecord.id) :=
  ⟨C5_upsert_merge.2.2.2.2.2 Examples.emptyStore Examples.plainRecord "t1" "id-1" "t2" "id-2"
      (by show ChestStore.normalizeLabel "vault" = "vault"; exact trim_vault) (by decide),
   (C5_upsert_merge.2.2.2.1 Examples.plainRecord "t1" "id-1").1⟩

/-- Witness for C6: both member coordinates of the forbidden vault double
chest resolve to the same (forbidden) record. -/
theorem C6_get_by_position_witness :
    ChestStore.getChestByPosition Examples.vaultStore Examples.vaultPrimary
        = some Examples.vaultRecord
      ∧ ChestStore.getChestByPosition Examples.vaultStore Examples.vaultSecond
        = some Examples.vaultRecord
      ∧ Examples.vaultRecord.forbidden = true :=
  ⟨((C6_get_by_position Examples.vaultStore).2.2.2 Examples.vaultPrimary Examples.vaultSecond
      Examples.vaultRecord (by decide) (by decide) (by decide) (by decide)
      (by decide)).1,
   ((C6_get_by_position Examples.vaultStore).2.2.2 Examples.vaultPrimary Examples.vaultSecond
      Examples.vaultRecord (by decide) (by decide) (by decide) (by decide)
      (by decide)).2,
   rfl⟩

theorem ChestUtils.find?_pos_eq_some_unique (l : List ChestStore.StoredPosition)
    (q : ChestStore.StoredPosition → Bool) (n : ChestStore.StoredPosition)
    (hmem : n ∈ l) (hq : q n = true)
    (hothers : ∀ x ∈ l, x ≠ n → q x = false) :
    l.find? q = some n := by
  induction l with
  | nil => cases hmem
  | cons a t ih =>
    by_cases ha : q a
    · rw [List.find?_cons_of_pos _ ha]
      by_cases hne : a = n
      · rw [hne]
      · exact absurd ha (by simp [hothers a (List.mem_cons_self a t) hne])
    · rw [List.find?_cons_of_neg _ ha]
      have hnt : n ∈ t := by
        rcases List.mem_cons.mp hmem with rfl | hm
        · exact absurd hq ha
        · exact hm
      exact ih hnt fun x hx hne => hothers x (List.mem_cons_of_mem a hx) hne

theorem ChestUtils.vecCmp_neg (a b : ChestStore.StoredPosition) :
    ChestUtils.vecCmp a b = -ChestUtils.vecCmp b a := by
  simp only [ChestUtils.vecCmp]
  split_ifs <;> omega

theorem ChestUtils.vecCmp_zero (a b : ChestStore.StoredPosition)
    (h : ChestUtils.vecCmp a b = 0) : a = b := by
  cases a with
  | mk ax ay az =>
    cases b with
    | mk bx by_ bz =>
      simp only [ChestUtils.vecCmp] at h
      split_ifs at h <;> (simp only [ChestStore.StoredPosition.mk.injEq]; omega)

theorem ChestUtils.lexLE_of_cmp_nonpos (a b : ChestStore.StoredPosition)
    (h : ChestUtils.vecCmp a b ≤ 0) : ChestUtils.lexLE a b := by
  simp only [ChestUtils.vecCmp] at h
  simp only [ChestUtils.lexLE]
  split_ifs at h <;> omega

theorem ChestUtils.sortPair_lexLE (a b : ChestStore.StoredPosition) :
    ChestUtils.lexLE (ChestUtils.sortPair a b).1 (ChestUtils.sortPair a b).2 := by
  simp only [ChestUtils.sortPair]
  split_ifs with h
  · have hba : ChestUtils.vecCmp b a ≤ 0 := by
      have := ChestUtils.vecCmp_neg a b
      omega
    exact ChestUtils.lexLE_of_cmp_nonpos b a hba
  · exact ChestUtils.lexLE_of_cmp_nonpos a b (by omega)

theorem ChestUtils.sortPair_cases (a b : ChestStore.StoredPosition) :
    ChestUtils.sortPair a b = (a, b) ∨ ChestUtils.sortPair a b = (b, a) := by
  simp only [ChestUtils.sortPair]
  split_ifs
  · exact Or.inr rfl
  · exact Or.inl rfl

theorem ChestUtils.sortPair_comm (a b : ChestStore.StoredPosition) (hne : a ≠ b) :
    ChestUtils.sortPair b a = ChestUtils.sortPair a b := by
  have hneg := ChestUtils.vecCmp_neg a b
  have hnz : ChestUtils.vecCmp a b ≠ 0 := fun h0 => hne (ChestUtils.vecCmp_zero a b h0)
  simp only [ChestUtils.sortPair]
  split_ifs with h1 h2 h2
  · omega
  · rfl
  · rfl
  · omega

theorem ChestUtils.mem_adjPositions_ne (pos p : ChestStore.StoredPosition)
    (h : p ∈ ChestUtils.adjPositions pos) : p ≠ pos := by
  cases pos with
  | mk x y z =>
    simp only [ChestUtils.adjPositions, ChestUtils.offset, List.mem_cons,
      List.not_mem_nil, or_false] at h
    intro heq
    subst heq
    rcases h with h | h | h | h <;>
      (rw [ChestStore.StoredPosition.mk.injEq] at h; omega)

/-- C7: inspecting a block named chest that has exactly one orthogonal
horizontal neighbor also named chest yields a composite classification of
type double_chest whose positions are the two coordinates in ascending
lexicographic x-then-y-then-z order with the first (smallest) as primary;
and when the neighbor relation is symmetric (each member sees exactly the
other), inspecting either member yields the identical positions and
primary. -/
theorem C7_double_chest_detection (world : ChestUtils.BlockWorld)
    (pos n : ChestStore.StoredPosition)
    (hpos : world pos = some "chest")
    (hmem : n ∈ ChestUtils.adjPositions pos)
    (hn : world n = some "chest")
    (huniq : ∀ p ∈ ChestUtils.adjPositions pos, p ≠ n → ¬(world p = some "chest")) :
    (ChestUtils.detectContainerAt world pos
        = Except.ok ⟨ChestStore.ContainerType.double_chest,
            [(ChestUtils.sortPair pos n).1, (ChestUtils.sortPair pos n).2],
            (ChestUtils.sortPair pos n).1⟩
      ∧ ChestUtils.lexLE (ChestUtils.sortPair pos n).1 (ChestUtils.sortPair pos n).2
      ∧ (ChestUtils.sortPair pos n = (pos, n) ∨ ChestUtils.sortPair pos n = (n, pos)))
    ∧ ((∀ p ∈ ChestUtils.adjPositions n, p ≠ pos → ¬(world p = some "chest")) →
        pos ∈ ChestUtils.adjPositions n →
        ChestUtils.detectContainerAt world n
          = Except.ok ⟨ChestStore.ContainerType.double_chest,
              [(ChestUtils.sortPair pos n).1, (ChestUtils.sortPair pos n).2],
              (ChestUtils.sortPair pos n).1⟩) := by
  have hfind : (ChestUtils.adjPositions pos).find? (fun p => world p == some "chest")
      = some n := by
    apply ChestUtils.find?_pos_eq_some_unique _ _ _ hmem
    · simp [hn]
    · intro x hx hne
      simp [huniq x hx hne]
  refine ⟨⟨?_, ChestUtils.sortPair_lexLE pos n, ChestUtils.sortPair_cases pos n⟩, ?_⟩
  · simp [ChestUtils.detectContainerAt, hpos, hfind]
  · intro huniq2 hmem2
    have hfind2 : (ChestUtils.adjPositions n).find? (fun p => world p == some "chest")
        = some pos := by
      apply ChestUtils.find?_pos_eq_some_unique _ _ _ hmem2
      · simp [hpos]
      · intro x hx hne
        simp [huniq2 x hx hne]
    have hcomm : ChestUtils.sortPair n pos = ChestUtils.sortPair pos n :=
      ChestUtils.sortPair_comm pos n
        (Ne.symm (ChestUtils.mem_adjPositions_ne pos n hmem))
    simp [ChestUtils.detectContainerAt, hn, hfind2, hcomm]

/-- Witness for C7: the spec scenario — chests at (10,64,10) and (11,64,10);
inspecting either member classifies a double chest with positions
[(10,64,10),(11,64,10)] and primary (10,64,10). -/
theorem C7_double_chest_detection_witness :
    ChestUtils.detectContainerAt Examples.pairWorld ⟨10, 64, 10⟩
        = Except.ok ⟨ChestStore.ContainerType.double_chest,
            [⟨10, 64, 10⟩, ⟨11, 64, 10⟩], ⟨10, 64, 10⟩⟩
      ∧ ChestUtils.detectContainerAt Examples.pairWorld ⟨11, 64, 10⟩
        = Except.ok ⟨ChestStore.ContainerType.double_chest,
            [⟨10, 64, 10⟩, ⟨11, 64, 10⟩], ⟨10, 64, 10⟩⟩ := by
  have h := C7_double_chest_detection Examples.pairWorld ⟨10, 64, 10⟩ ⟨11, 64, 10⟩
    (by decide) (by decide) (by decide) (by decide)
  have hs : ChestUtils.sortPair ⟨10, 64, 10⟩ ⟨11, 64, 10⟩
      = (⟨10, 64, 10⟩, ⟨11, 64, 10⟩) := by decide
  constructor
  · rw [h.1.1, hs]
  · rw [h.2 (by decide) (by decide), hs]

theorem Mutex.foldl_inv (tasks : List Mutex.TaskSpec) (P : (Nat → Mutex.Phase) → Prop)
    (hstep : ∀ st k, P st → P (Mutex.stepF tasks st k)) :
    ∀ (sched : List Nat) (st : Nat → Mutex.Phase), P st →
      P (sched.foldl (Mutex.stepF tasks) st) := by
  intro sched
  induction sched with
  | nil => intro st h; exact h
  | cons k ks ih => intro st h; exact ih _ (hstep st k h)

theorem Mutex.stepF_preserves_order (tasks : List Mutex.TaskSpec)
    (st : Nat → Mutex.Phase) (k : Nat)
    (h : ∀ i j, i < j → j < tasks.length →
      Mutex.lockKeyOf (tasks.getD i default) = Mutex.lockKeyOf (tasks.getD j default) →
      st j ≠ Mutex.Phase.pending → Mutex.isDone (st i) = true) :
    ∀ i j, i < j → j < tasks.length →
      Mutex.lockKeyOf (tasks.getD i default) = Mutex.lockKeyOf (tasks.getD j default) →
      Mutex.stepF tasks st k j ≠ Mutex.Phase.pending →
      Mutex.isDone (Mutex.stepF tasks st k i) = true := by
  intro i j hij hjlen hkey hj
  rcases hst : st k with _ | _ | b <;> simp only [Mutex.stepF, hst] at hj ⊢
  · by_cases henb : Mutex.enabled tasks st k = true
    · rw [if_pos henb] at hj ⊢
      by_cases hjk : j = k
      · subst hjk
        have hik : i ≠ j := Nat.ne_of_lt hij
        rw [Function.update_noteq hik]
        have hall := (List.all_eq_true.mp henb) i (List.mem_range.mpr hij)
        rw [if_pos (by exact beq_iff_eq.mpr hkey)] at hall
        exact hall
      · rw [Function.update_noteq hjk] at hj
        have hdone := h i j hij hjlen hkey hj
        by_cases hik : i = k
        · subst hik
          rw [hst] at hdone
          simp [Mutex.isDone] at hdone
        · rw [Function.update_noteq hik]
          exact hdone
    · rw [if_neg henb] at hj ⊢
      exact h i j hij hjlen hkey hj
  · by_cases hik : i = k
    · subst hik
      rw [Function.update_same]
      rfl
    · rw [Function.update_noteq hik]
      by_cases hjk : j = k
      · subst hjk
        exact h i j hij hjlen hkey (by rw [hst]; simp)
      · rw [Function.update_noteq hjk] at hj
        exact h i j hij hjlen hkey hj
  · exact h i j hij hjlen hkey hj

theorem Mutex.mutexRun_order (tasks : List Mutex.TaskSpec) (sched : List Nat) :
    ∀ i j, i < j → j < tasks.length →
      Mutex.lockKeyOf (tasks.getD i default) = Mutex.lockKeyOf (tasks.getD j default) →
      Mutex.mutexRun tasks sched j ≠ Mutex.Phase.pending →
      Mutex.isDone (Mutex.mutexRun tasks sched i) = true := by
  exact Mutex.foldl_inv tasks _ (Mutex.stepF_preserves_order tasks) sched _
    (fun i j _ _ _ hj => absurd rfl hj)

/-- C1: among the calls of one bot on one key, the chain serializes
execution — in every reachable state of the cooperative event loop, if a
later-submitted call has started (left `pending`), every earlier call with
the same lock key has finished, so two same-key calls are never `running`
together and they start in submission (FIFO) order; calls under distinct
lock keys are unordered and can overlap, as the two-key schedule that
interleaves both calls into simultaneous `running` states shows. -/
theorem C1_mutex_fifo_exclusion :
    (∀ (tasks : List Mutex.TaskSpec) (sched : List Nat) (i j : Nat),
        i < j → j < tasks.length →
        (tasks.getD i default).username = (tasks.getD j default).username →
        (tasks.getD i default).key = (tasks.getD j default).key →
        ((Mutex.mutexRun tasks sched j ≠ Mutex.Phase.pending →
            Mutex.isDone (Mutex.mutexRun tasks sched i) = true)
          ∧ ¬(Mutex.mutexRun tasks sched i = Mutex.Phase.running
              ∧ Mutex.mutexRun tasks sched j = Mutex.Phase.running)))
    ∧ (Mutex.mutexRun Examples.overlapTasks [0, 1] 0 = Mutex.Phase.running
        ∧ Mutex.mutexRun Examples.overlapTasks [0, 1] 1 = Mutex.Phase.running
        ∧ Mutex.lockKeyOf (Examples.overlapTasks.getD 0 default)
            ≠ Mutex.lockKeyOf (Examples.overlapTasks.getD 1 default)) := by
  constructor
  · intro tasks sched i j hij hjlen huser hkey
    have hlk : Mutex.lockKeyOf (tasks.getD i default)
        = Mutex.lockKeyOf (tasks.getD j default) := by
      simp only [Mutex.lockKeyOf, Mutex.mkLockKey, huser, hkey]
    have hord := Mutex.mutexRun_order tasks sched i j hij hjlen hlk
    refine ⟨hord, ?_⟩
    rintro ⟨hi, hj⟩
    have := hord (by rw [hj]; simp)
    rw [hi] at this
    simp [Mutex.isDone] at this
  · exact ⟨by decide, by decide, by decide⟩

/-- Witness for C1: two same-key calls under the schedule that finishes the
first and starts the second — the first is done once the second has
started, and they are never running together. -/
theorem C1_mutex_fifo_exclusion_witness :
    Mutex.isDone (Mutex.mutexRun Examples.serialTasks [0, 0, 1] 0) = true
      ∧ ¬(Mutex.mutexRun Examples.serialTasks [0, 0, 1] 0 = Mutex.Phase.running
          ∧ Mutex.mutexRun Examples.serialTasks [0, 0, 1] 1 = Mutex.Phase.running) := by
  have h := C1_mutex_fifo_exclusion.1 Examples.serialTasks [0, 0, 1] 0 1
    (by decide) (by decide) (by decide) (by decide)
  exact ⟨h.1 (by decide), h.2⟩

theorem Mutex.stepF_preserves_outcome (tasks : List Mutex.TaskSpec)
    (st : Nat → Mutex.Phase) (k : Nat)
    (h : ∀ i b, st i = Mutex.Phase.done b → b = (tasks.getD i default).ok) :
    ∀ i b, Mutex.stepF tasks st k i = Mutex.Phase.done b →
      b = (tasks.getD i default).ok := by
  intro i b
  rcases hst : st k with _ | _ | bk <;> simp only [Mutex.stepF, hst]
  · split
    · by_cases hik : i = k
      · subst hik
        rw [Function.update_same]
        intro hcon
        cases hcon
      · rw [Function.update_noteq hik]
        exact h i b
    · exact h i b
  · by_cases hik : i = k
    · subst hik
      rw [Function.update_same]
      intro hdb
      injection hdb with hb
      exact hb.symm
    · rw [Function.update_noteq hik]
      exact h i b
  · exact h i b

theorem Mutex.seq_state (tasks : List Mutex.TaskSpec) :
    ∀ k, k ≤ tasks.length →
      ((List.range k).flatMap fun i => [i, i]).foldl (Mutex.stepF tasks)
          (fun _ => Mutex.Phase.pending)
        = fun i => if i < k then Mutex.Phase.done (tasks.getD i default).ok
            else Mutex.Phase.pending := by
  intro k
  induction k with
  | zero => intro _; funext i; simp
  | succ k ih =>
    intro hk1
    have hk : k ≤ tasks.length := Nat.le_of_succ_le hk1
    rw [List.range_succ, List.flatMap_append, List.foldl_append, ih hk]
    simp only [List.flatMap_cons, List.flatMap_nil, List.append_nil, List.foldl_cons,
      List.foldl_nil]
    set S : Nat → Mutex.Phase :=
      fun i => if i < k then Mutex.Phase.done (tasks.getD i default).ok
        else Mutex.Phase.pending with hSdef
    have hSk : S k = Mutex.Phase.pending := by simp [hSdef]
    have henb : Mutex.enabled tasks S k = true := by
      rw [Mutex.enabled, List.all_eq_true]
      intro m hm
      rw [List.mem_range] at hm
      split
      · simp [hSdef, hm, Mutex.isDone]
      · rfl
    have h1 : Mutex.stepF tasks S k = Function.update S k Mutex.Phase.running := by
      simp only [Mutex.stepF, hSk, henb, if_true]
    rw [h1]
    have h2 : Mutex.stepF tasks (Function.update S k Mutex.Phase.running) k
        = Function.update (Function.update S k Mutex.Phase.running) k
            (Mutex.Phase.done (tasks.getD k default).ok) := by
      simp only [Mutex.stepF, Function.update_same]
    rw [h2]
    funext i
    by_cases hik : i = k
    · subst hik
      rw [Function.update_same]
      simp
    · rw [Function.update_noteq hik, Function.update_noteq hik, hSdef]
      by_cases hlt : i < k
      · simp [hlt, Nat.lt_succ_of_lt hlt]
      · have hnlt : ¬i < k + 1 := by omega
        simp [hlt, hnlt]

/-- C4: a rejection inside `runExclusive` reaches only that call — in every
reachable state, a finished call records exactly the outcome of its own
operation, independent of every other call; and the chain advances past
failures — under the sequential schedule every queued call reaches
completion with its own outcome, whatever the success or failure pattern of
the calls before it on the same key. -/
theorem C4_failure_isolation :
    (∀ (tasks : List Mutex.TaskSpec) (sched : List Nat) (i : Nat) (b : Bool),
        Mutex.mutexRun tasks sched i = Mutex.Phase.done b →
        b = (tasks.getD i default).ok)
    ∧ (∀ (tasks : List Mutex.TaskSpec) (i : Nat), i < tasks.length →
        Mutex.mutexRun tasks (Mutex.seqSchedule tasks.length) i
          = Mutex.Phase.done (tasks.getD i default).ok) := by
  constructor
  · intro tasks sched i b
    exact Mutex.foldl_inv tasks _ (Mutex.stepF_preserves_outcome tasks) sched _
      (fun i b hcon => by cases hcon) i b
  · intro tasks i hi
    rw [Mutex.mutexRun, Mutex.seqSchedule,
      Mutex.seq_state tasks tasks.length (Nat.le_refl _)]
    simp [hi]

/-- Witness for C4: with the first same-key call rejecting and the second
resolving, the sequential schedule finishes both — the failure is recorded
only at the first call and the second still runs to its own success. -/
theorem C4_failure_isolation_witness :
    Mutex.mutexRun Examples.serialTasks (Mutex.seqSchedule Examples.serialTasks.length) 0
        = Mutex.Phase.done false
      ∧ Mutex.mutexRun Examples.serialTasks (Mutex.seqSchedule Examples.serialTasks.length) 1
        = Mutex.Phase.done true :=
  ⟨(C4_failure_isolation.2 Examples.serialTasks 0 (by decide)).trans (by decide),
   (C4_failure_isolation.2 Examples.serialTasks 1 (by decide)).trans (by decide)⟩
